import Mathlib

/-!
Shallow embedding of the animation data model and identifier-refreshing
protocol of bevy_spritesheet_animation (src/animation.rs, src/id_refreshing.rs),
together with theorems about its behaviour.

Machine integers (u32 / usize) are represented by Nat: the code performs no
arithmetic on them, so overflow is irrelevant.  Rust's HashMap tables are
represented by association lists with a lookup function; insertion happens
only when the key is absent, so lookup semantics agree with HashMap.
-/

/-- Opaque clip identifier (clip.rs is not among the provided sources; the
spec describes it as an opaque, comparable, hashable token). -/
abbrev ClipId := Nat

/-- Opaque frame-marker identifier (events.rs is not among the provided
sources; the spec describes it as an opaque, comparable, hashable token). -/
abbrev Marker := Nat

/-- Modelled from the spec: an opaque easing parameter value (easing.rs is
not among the provided sources; only equality of values matters here). -/
abbrev Easing := Nat

/-- The duration of an Animation (src/animation.rs). -/
inductive AnimationDuration where
  | PerFrame (ms : Nat)
  | PerRepetition (ms : Nat)
deriving DecidableEq

instance : Inhabited AnimationDuration := ⟨AnimationDuration.PerFrame 100⟩

/-- How many times an Animation repeats (src/animation.rs). -/
inductive AnimationRepeat where
  | Loop
  | Times (n : Nat)
deriving DecidableEq

instance : Inhabited AnimationRepeat := ⟨AnimationRepeat.Loop⟩

/-- The direction in which the frames are played (src/animation.rs). -/
inductive AnimationDirection where
  | Forwards
  | Backwards
  | PingPong
deriving DecidableEq

instance : Inhabited AnimationDirection := ⟨AnimationDirection.Forwards⟩

/-- Modelled from the spec: a Frame holds positional data (sprite
index/region, opaque here) plus the markers attached to the frame
(frame/clip sources are not among the provided files). -/
structure Frame where
  sprite : Nat
  markers : List Marker
deriving DecidableEq

/-- Modelled from the spec: a Clip is an identifier, an ordered sequence of
frames, and optional per-clip playback parameters (clip.rs is not among the
provided sources). -/
structure Clip where
  id : ClipId
  frames : List Frame
  duration : Option AnimationDuration
  repetitions : Option AnimationRepeat
  direction : Option AnimationDirection
  easing : Option Easing
deriving DecidableEq

/-- Modelled from the spec: Clip::empty yields a clip with zero frames and
unset parameters; its identifier is freshly drawn from the process-wide id
source (the concrete value is irrelevant and represented by 0). -/
def Clip.empty : Clip :=
  { id := 0, frames := [], duration := none, repetitions := none,
    direction := none, easing := none }

/-- An Animation: an ordered sequence of clips plus optional animation-level
playback parameters (src/animation.rs). -/
structure Animation where
  clips : List Clip
  duration : Option AnimationDuration
  repetitions : Option AnimationRepeat
  direction : Option AnimationDirection
  easing : Option Easing
deriving DecidableEq

/-- Animation::empty (src/animation.rs): one default empty clip, all optional
parameters unset. -/
def Animation.empty : Animation :=
  { clips := [Clip.empty], duration := none, repetitions := none,
    direction := none, easing := none }

/-- The IdRefresher trait (src/animation.rs): a pluggable strategy with an
associated error type.  Stateful Rust methods on `&mut self` become explicit
state passing over a state type σ. -/
structure IdRefresher (σ ε : Type) where
  refresh_clip_id : σ → Nat → ClipId → Except ε (ClipId × σ)
  refresh_marker : σ → ClipId → Nat → Marker → Except ε (Marker × σ)

/-- Modelled from the spec (§4.3 step 4): refresh the markers of one frame in
order; on the first failure the remaining markers are left untouched and the
error is reported.  The result is (markers, refresher state, optional error). -/
def refreshMarkers (R : IdRefresher σ ε) (clip_id : ClipId) (frame : Nat) :
    σ → List Marker → List Marker × σ × Option ε
  | s, [] => ([], s, none)
  | s, m :: ms =>
    match R.refresh_marker s clip_id frame m with
    | Except.error e => (m :: ms, s, some e)
    | Except.ok (m', s') =>
      match refreshMarkers R clip_id frame s' ms with
      | (ms', s'', r) => (m' :: ms', s'', r)

/-- Modelled from the spec (§4.3 steps 3-4): refresh the frames of a clip in
sequence order with a running zero-based frame index; stop at the first
failure, leaving later frames untouched. -/
def refreshFrames (R : IdRefresher σ ε) (clip_id : ClipId) :
    Nat → σ → List Frame → List Frame × σ × Option ε
  | _, s, [] => ([], s, none)
  | k, s, f :: fs =>
    match refreshMarkers R clip_id k s f.markers with
    | (ms', s', some e) => ({ f with markers := ms' } :: fs, s', some e)
    | (ms', s', none) =>
      match refreshFrames R clip_id (k + 1) s' fs with
      | (fs', s'', r) => ({ f with markers := ms' } :: fs', s'', r)

/-- Modelled from the spec (§4.3 steps 2-5): Clip::refresh_ids.  The clip's
old identifier is captured before it is replaced, and that pre-remap value is
the one passed to refresh_marker for every marker of the clip. -/
def Clip.refresh_ids (c : Clip) (index : Nat) (R : IdRefresher σ ε) (s : σ) :
    Clip × σ × Option ε :=
  match R.refresh_clip_id s index c.id with
  | Except.error e => (c, s, some e)
  | Except.ok (new_id, s') =>
    match refreshFrames R c.id 0 s' c.frames with
    | (fs', s'', r) => ({ c with id := new_id, frames := fs' }, s'', r)

/-- The clip loop of Animation::refresh_ids (src/animation.rs): iterate the
clips with a running index, propagating the first error and leaving the
remaining clips untouched. -/
def refreshClipsFrom (R : IdRefresher σ ε) :
    Nat → σ → List Clip → List Clip × σ × Option ε
  | _, s, [] => ([], s, none)
  | idx, s, c :: cs =>
    match c.refresh_ids idx R s with
    | (c', s', some e) => (c' :: cs, s', some e)
    | (c', s', none) =>
      match refreshClipsFrom R (idx + 1) s' cs with
      | (cs', s'', r) => (c' :: cs', s'', r)

/-- Animation::refresh_ids (src/animation.rs): refresh every clip starting at
index 0.  The Rust method mutates in place and returns Result<(), E>; here the
(possibly partially) mutated animation is returned together with the final
refresher state and the optional error. -/
def Animation.refresh_ids (a : Animation) (R : IdRefresher σ ε) (s : σ) :
    Animation × σ × Option ε :=
  match refreshClipsFrom R 0 s a.clips with
  | (cs', s', r) => ({ a with clips := cs' }, s', r)

/-- Association-list lookup, the model of HashMap lookup (keys are unique
because insertion only ever happens at an absent key). -/
def alookup (k : Nat) : List (Nat × Nat) → Option Nat
  | [] => none
  | (k₁, v) :: rest => if k = k₁ then some v else alookup k rest

/-- MappingIdRefresher (src/animation.rs): two old-to-new mapping tables.
The extra field `fresh` is modelled from the spec (§9): it represents the
state of the process-wide monotonically-increasing id source backing
ClipId::new() and Marker::new(), which is global in Rust and therefore not a
struct field there. -/
structure MappingIdRefresher where
  clip_ids : List (ClipId × ClipId)
  markers : List (Marker × Marker)
  fresh : Nat
deriving DecidableEq

/-- MappingIdRefresher::new (src/animation.rs), plus the modelled state of
the global id source. -/
def MappingIdRefresher.new (clip_ids : List (ClipId × ClipId))
    (markers : List (Marker × Marker)) (fresh : Nat) : MappingIdRefresher :=
  { clip_ids := clip_ids, markers := markers, fresh := fresh }

/-- MappingIdRefresher::clip_id_mapping (src/animation.rs). -/
def MappingIdRefresher.clip_id_mapping (s : MappingIdRefresher) :
    List (ClipId × ClipId) := s.clip_ids

/-- MappingIdRefresher::marker_mapping (src/animation.rs). -/
def MappingIdRefresher.marker_mapping (s : MappingIdRefresher) :
    List (Marker × Marker) := s.markers

/-- The error type of MappingIdRefresher (src/animation.rs):
`pub struct Impossible;`, a unit struct. -/
structure Impossible where
deriving DecidableEq

instance : DecidableEq Impossible := fun a b => isTrue (by cases a; cases b; rfl)
deriving instance DecidableEq for Except

/-- MappingIdRefresher::refresh_clip_id (src/animation.rs): HashMap
entry(clip_id).or_insert_with(ClipId::new), ignoring the index argument. -/
def MappingIdRefresher.refresh_clip_id (s : MappingIdRefresher)
    (_index : Nat) (clip_id : ClipId) :
    Except Impossible (ClipId × MappingIdRefresher) :=
  match alookup clip_id s.clip_ids with
  | some v => Except.ok (v, s)
  | none =>
    Except.ok (s.fresh,
      { clip_ids := (clip_id, s.fresh) :: s.clip_ids,
        markers := s.markers, fresh := s.fresh + 1 })

/-- MappingIdRefresher::refresh_marker (src/animation.rs): HashMap
entry(marker).or_insert_with(Marker::new), ignoring clip id and frame index. -/
def MappingIdRefresher.refresh_marker (s : MappingIdRefresher)
    (_clip_id : ClipId) (_frame : Nat) (marker : Marker) :
    Except Impossible (Marker × MappingIdRefresher) :=
  match alookup marker s.markers with
  | some v => Except.ok (v, s)
  | none =>
    Except.ok (s.fresh,
      { clip_ids := s.clip_ids,
        markers := (marker, s.fresh) :: s.markers, fresh := s.fresh + 1 })

/-- The impl IdRefresher for MappingIdRefresher (src/animation.rs), packaged
for the generic traversal. -/
def mappingRefresher : IdRefresher MappingIdRefresher Impossible :=
  ⟨fun s i k => s.refresh_clip_id i k, fun s c f m => s.refresh_marker c f m⟩

/-- One call made to a MappingIdRefresher, used to talk about arbitrary call
sequences against one refresher instance. -/
inductive RefreshOp where
  | clip (index : Nat) (id : ClipId)
  | marker (clip_id : ClipId) (frame : Nat) (m : Marker)
deriving DecidableEq

/-- State update performed by one call (the error branch is unreachable for
MappingIdRefresher, which always returns Ok). -/
def MappingIdRefresher.applyOp (s : MappingIdRefresher) : RefreshOp → MappingIdRefresher
  | RefreshOp.clip i k =>
    match s.refresh_clip_id i k with
    | Except.ok (_, s') => s'
    | Except.error _ => s
  | RefreshOp.marker c f m =>
    match s.refresh_marker c f m with
    | Except.ok (_, s') => s'
    | Except.error _ => s

/-- Run a sequence of calls against one MappingIdRefresher instance. -/
def MappingIdRefresher.run : MappingIdRefresher → List RefreshOp → MappingIdRefresher
  | s, [] => s
  | s, op :: ops => MappingIdRefresher.run (s.applyOp op) ops

/-- All markers of a list of frames, in traversal order. -/
def framesMarkers (fs : List Frame) : List Marker := fs.flatMap fun f => f.markers

/-- All markers of a list of clips, in traversal order. -/
def clipsMarkers (cs : List Clip) : List Marker := cs.flatMap fun c => framesMarkers c.frames

/-- All markers occurring in an animation, in traversal order. -/
def animMarkers (a : Animation) : List Marker := clipsMarkers a.clips

/-- The clip identifiers of an animation, in order. -/
def clipIdsOf (a : Animation) : List ClipId := a.clips.map Clip.id

/-- The clip table of `s` maps old id `k` to new id `v`. -/
abbrev ClipBinds (s : MappingIdRefresher) (k v : ClipId) : Prop :=
  alookup k s.clip_ids = some v

/-- The marker table of `s` maps old marker `m` to new marker `v`. -/
abbrev MarkBinds (s : MappingIdRefresher) (m v : Marker) : Prop :=
  alookup m s.markers = some v

/-- State `t` extends state `s`: established mappings persist and the fresh
counter never decreases. -/
def RefMono (s t : MappingIdRefresher) : Prop :=
  (∀ k v, ClipBinds s k v → ClipBinds t k v) ∧
  (∀ m v, MarkBinds s m v → MarkBinds t m v) ∧
  s.fresh ≤ t.fresh

/-- Every new identifier recorded in the tables is below the fresh counter. -/
def TablesBounded (s : MappingIdRefresher) : Prop :=
  (∀ k v, ClipBinds s k v → v < s.fresh) ∧ (∀ m v, MarkBinds s m v → v < s.fresh)

/-- Distinct old identifiers are never mapped to the same new identifier. -/
def TablesInj (s : MappingIdRefresher) : Prop :=
  (∀ k₁ k₂ v, ClipBinds s k₁ v → ClipBinds s k₂ v → k₁ = k₂) ∧
  (∀ m₁ m₂ v, MarkBinds s m₁ v → MarkBinds s m₂ v → m₁ = m₂)

/-- The invariant maintained by MappingIdRefresher. -/
def GoodTables (s : MappingIdRefresher) : Prop := TablesBounded s ∧ TablesInj s

/-- Pointwise relation between a pre-refresh frame and its refreshed version,
relative to a final refresher state. -/
def FrameRel (t : MappingIdRefresher) (fr fr' : Frame) : Prop :=
  fr'.sprite = fr.sprite ∧
    List.Forall₂ (fun m₀ m₀' => MarkBinds t m₀ m₀') fr.markers fr'.markers

/-- Pointwise relation between a pre-refresh clip and its refreshed version,
relative to a final refresher state. -/
def ClipRel (t : MappingIdRefresher) (c c' : Clip) : Prop :=
  ClipBinds t c.id c'.id ∧ List.Forall₂ (FrameRel t) c.frames c'.frames

/-- Everything of a frame except its marker values: sprite data and the
number of markers. -/
def FrameShape (fr fr' : Frame) : Prop :=
  fr'.sprite = fr.sprite ∧ fr'.markers.length = fr.markers.length

/-- Everything of a clip except its identifier and marker values: the four
optional parameters and the frame sequence shape. -/
def ClipShape (c c' : Clip) : Prop :=
  c'.duration = c.duration ∧ c'.repetitions = c.repetitions ∧
  c'.direction = c.direction ∧ c'.easing = c.easing ∧
  List.Forall₂ FrameShape c.frames c'.frames

/-- An infallible identity refresher used for concrete runs. -/
def plainRefresher : IdRefresher Unit Unit :=
  ⟨fun s _ k => Except.ok (k, s), fun s _ _ m => Except.ok (m, s)⟩

/-- A refresher that succeeds on clip index 0 and fails with error 9 on
every later clip index, used to exercise the fail-fast behaviour. -/
def failingRefresher : IdRefresher Unit Nat :=
  ⟨fun s i k => if i = 0 then Except.ok (k + 100, s) else Except.error 9,
   fun s _ _ m => Except.ok (m + 1000, s)⟩

/-- A three-clip animation used to exercise the fail-fast behaviour. -/
def failFastAnimation : Animation :=
  { clips := [
      { id := 1, frames := [{ sprite := 0, markers := [5] }],
        duration := none, repetitions := none, direction := none,
        easing := none },
      { id := 2, frames := [], duration := none, repetitions := none,
        direction := none, easing := none },
      { id := 3, frames := [{ sprite := 1, markers := [6] }],
        duration := none, repetitions := none, direction := none,
        easing := none }],
    duration := none, repetitions := none, direction := none,
    easing := none }

/-- The remapped version of clip 0 of failFastAnimation produced by
failingRefresher. -/
def failFastClip0 : Clip :=
  { id := 101, frames := [{ sprite := 0, markers := [1005] }],
    duration := none, repetitions := none, direction := none,
    easing := none }

/-- One observable call made by the refresh traversal to a refresher. -/
inductive REvent where
  | clipCall (index : Nat) (old : ClipId)
  | markerCall (clip_id : ClipId) (frame : Nat) (old : Marker)
deriving DecidableEq

/-- Wrap a refresher so that its state additionally records the list of
calls made to it, in order. -/
def traced {σ ε : Type} (R : IdRefresher σ ε) :
    IdRefresher (σ × List REvent) ε :=
  ⟨fun p i k =>
      match R.refresh_clip_id p.1 i k with
      | Except.error e => Except.error e
      | Except.ok (v, s') =>
        Except.ok (v, (s', p.2 ++ [REvent.clipCall i k])),
   fun p c f m =>
      match R.refresh_marker p.1 c f m with
      | Except.error e => Except.error e
      | Except.ok (v, s') =>
        Except.ok (v, (s', p.2 ++ [REvent.markerCall c f m]))⟩

/-- The refresh_marker calls generated by a list of frames of the clip with
(pre-remap) id `c`, starting at frame index `k`. -/
def framesTrace (c : ClipId) : Nat → List Frame → List REvent
  | _, [] => []
  | k, f :: fs => f.markers.map (REvent.markerCall c k) ++ framesTrace c (k + 1) fs

/-- The calls generated by a list of clips starting at clip index `k`: for
each clip, one refresh_clip_id call with the clip's pre-remap id followed by
the refresh_marker calls of its frames, all carrying that pre-remap id. -/
def clipsTrace : Nat → List Clip → List REvent
  | _, [] => []
  | k, cl :: cs =>
    REvent.clipCall k cl.id ::
      (framesTrace cl.id 0 cl.frames ++ clipsTrace (k + 1) cs)

/-- The full call sequence a successful refresh of `a` makes. -/
def expectedTrace (a : Animation) : List REvent := clipsTrace 0 a.clips

/-- The indices passed to refresh_clip_id, in call order. -/
def clipCallIndices : List REvent → List Nat
  | [] => []
  | REvent.clipCall i _ :: rest => i :: clipCallIndices rest
  | REvent.markerCall _ _ _ :: rest => clipCallIndices rest

/-- The frame indices passed to refresh_marker, in call order. -/
def markerFrameIdxs : List REvent → List Nat
  | [] => []
  | REvent.clipCall _ _ :: rest => markerFrameIdxs rest
  | REvent.markerCall _ f _ :: rest => f :: markerFrameIdxs rest

/-- A one-clip animation whose single frame carries two markers. -/
def twoMarkerAnimation : Animation :=
  { clips := [
      { id := 1, frames := [{ sprite := 0, markers := [7, 8] }],
        duration := none, repetitions := none, direction := none,
        easing := none }],
    duration := none, repetitions := none, direction := none,
    easing := none }

theorem refMono_refl (s : MappingIdRefresher) : RefMono s s :=
  ⟨fun _ _ h => h, fun _ _ h => h, Nat.le_refl _⟩

theorem refMono_trans {s t u : MappingIdRefresher}
    (h₁ : RefMono s t) (h₂ : RefMono t u) : RefMono s u :=
  ⟨fun k v h => h₂.1 k v (h₁.1 k v h), fun m v h => h₂.2.1 m v (h₁.2.1 m v h),
   Nat.le_trans h₁.2.2 h₂.2.2⟩

theorem alookup_cons (k₀ k v : Nat) (l : List (Nat × Nat)) :
    alookup k₀ ((k, v) :: l) = if k₀ = k then some v else alookup k₀ l := rfl

theorem rc_binds {s s' : MappingIdRefresher} {i : Nat} {k v : ClipId}
    (h : s.refresh_clip_id i k = Except.ok (v, s')) : ClipBinds s' k v := by
  unfold MappingIdRefresher.refresh_clip_id at h
  cases hl : alookup k s.clip_ids with
  | some w =>
    rw [hl] at h
    simp only [Except.ok.injEq, Prod.mk.injEq] at h
    obtain ⟨rfl, rfl⟩ := h
    exact hl
  | none =>
    rw [hl] at h
    simp only [Except.ok.injEq, Prod.mk.injEq] at h
    obtain ⟨rfl, rfl⟩ := h
    simp [ClipBinds, alookup_cons]

theorem rm_binds {s s' : MappingIdRefresher} {c f : Nat} {m v : Marker}
    (h : s.refresh_marker c f m = Except.ok (v, s')) : MarkBinds s' m v := by
  unfold MappingIdRefresher.refresh_marker at h
  cases hl : alookup m s.markers with
  | some w =>
    rw [hl] at h
    simp only [Except.ok.injEq, Prod.mk.injEq] at h
    obtain ⟨rfl, rfl⟩ := h
    exact hl
  | none =>
    rw [hl] at h
    simp only [Except.ok.injEq, Prod.mk.injEq] at h
    obtain ⟨rfl, rfl⟩ := h
    simp [MarkBinds, alookup_cons]

theorem rc_of_clipBinds {s : MappingIdRefresher} {k v : ClipId} (i : Nat)
    (h : ClipBinds s k v) : s.refresh_clip_id i k = Except.ok (v, s) := by
  unfold MappingIdRefresher.refresh_clip_id
  rw [h]

theorem rm_of_markBinds {s : MappingIdRefresher} {m v : Marker} (c f : Nat)
    (h : MarkBinds s m v) : s.refresh_marker c f m = Except.ok (v, s) := by
  unfold MappingIdRefresher.refresh_marker
  rw [h]

theorem rc_ok (s : MappingIdRefresher) (i : Nat) (k : ClipId) :
    ∃ v s', s.refresh_clip_id i k = Except.ok (v, s') := by
  unfold MappingIdRefresher.refresh_clip_id
  cases hl : alookup k s.clip_ids with
  | some w => exact ⟨w, s, rfl⟩
  | none => exact ⟨s.fresh, _, rfl⟩

theorem rm_ok (s : MappingIdRefresher) (c f : Nat) (m : Marker) :
    ∃ v s', s.refresh_marker c f m = Except.ok (v, s') := by
  unfold MappingIdRefresher.refresh_marker
  cases hl : alookup m s.markers with
  | some w => exact ⟨w, s, rfl⟩
  | none => exact ⟨s.fresh, _, rfl⟩

theorem rc_mono {s s' : MappingIdRefresher} {i : Nat} {k v : ClipId}
    (h : s.refresh_clip_id i k = Except.ok (v, s')) : RefMono s s' := by
  unfold MappingIdRefresher.refresh_clip_id at h
  cases hl : alookup k s.clip_ids with
  | some w =>
    rw [hl] at h
    simp only [Except.ok.injEq, Prod.mk.injEq] at h
    obtain ⟨rfl, rfl⟩ := h
    exact refMono_refl s
  | none =>
    rw [hl] at h
    simp only [Except.ok.injEq, Prod.mk.injEq] at h
    obtain ⟨rfl, rfl⟩ := h
    refine ⟨fun k₀ v₀ hb => ?_, fun m₀ v₀ hb => hb, Nat.le_succ _⟩
    show alookup k₀ ((k, s.fresh) :: s.clip_ids) = some v₀
    rw [alookup_cons, if_neg]
    · exact hb
    · intro heq
      rw [heq] at hb
      have hb' : alookup k s.clip_ids = some v₀ := hb
      rw [hl] at hb'
      exact Option.noConfusion hb'

theorem rm_mono {s s' : MappingIdRefresher} {c f : Nat} {m v : Marker}
    (h : s.refresh_marker c f m = Except.ok (v, s')) : RefMono s s' := by
  unfold MappingIdRefresher.refresh_marker at h
  cases hl : alookup m s.markers with
  | some w =>
    rw [hl] at h
    simp only [Except.ok.injEq, Prod.mk.injEq] at h
    obtain ⟨rfl, rfl⟩ := h
    exact refMono_refl s
  | none =>
    rw [hl] at h
    simp only [Except.ok.injEq, Prod.mk.injEq] at h
    obtain ⟨rfl, rfl⟩ := h
    refine ⟨fun k₀ v₀ hb => hb, fun m₀ v₀ hb => ?_, Nat.le_succ _⟩
    show alookup m₀ ((m, s.fresh) :: s.markers) = some v₀
    rw [alookup_cons, if_neg]
    · exact hb
    · intro heq
      rw [heq] at hb
      have hb' : alookup m s.markers = some v₀ := hb
      rw [hl] at hb'
      exact Option.noConfusion hb'

theorem goodTables_empty (n : Nat) : GoodTables (MappingIdRefresher.new [] [] n) := by
  refine ⟨⟨?_, ?_⟩, ⟨?_, ?_⟩⟩
  · intro k v h; exact Option.noConfusion h
  · intro m v h; exact Option.noConfusion h
  · intro k₁ k₂ v h₁ h₂; exact Option.noConfusion h₁
  · intro m₁ m₂ v h₁ h₂; exact Option.noConfusion h₁

theorem rc_good {s s' : MappingIdRefresher} {i : Nat} {k v : ClipId}
    (hg : GoodTables s) (h : s.refresh_clip_id i k = Except.ok (v, s')) :
    GoodTables s' := by
  unfold MappingIdRefresher.refresh_clip_id at h
  cases hl : alookup k s.clip_ids with
  | some w =>
    rw [hl] at h
    simp only [Except.ok.injEq, Prod.mk.injEq] at h
    obtain ⟨rfl, rfl⟩ := h
    exact hg
  | none =>
    rw [hl] at h
    simp only [Except.ok.injEq, Prod.mk.injEq] at h
    obtain ⟨rfl, rfl⟩ := h
    obtain ⟨⟨hbc, hbm⟩, ⟨hic, him⟩⟩ := hg
    refine ⟨⟨?_, ?_⟩, ⟨?_, ?_⟩⟩
    · intro k₀ v₀ hb
      have hb' : (if k₀ = k then some s.fresh else alookup k₀ s.clip_ids) = some v₀ := hb
      by_cases hk : k₀ = k
      · rw [if_pos hk] at hb'
        injection hb' with hv
        subst hv
        exact Nat.lt_succ_self s.fresh
      · rw [if_neg hk] at hb'
        have hlt := hbc k₀ v₀ hb'
        show v₀ < s.fresh + 1
        exact Nat.lt_succ_of_lt hlt
    · intro m₀ v₀ hb
      have hlt := hbm m₀ v₀ hb
      show v₀ < s.fresh + 1
      exact Nat.lt_succ_of_lt hlt
    · intro k₁ k₂ v₀ h₁ h₂
      have h₁' : (if k₁ = k then some s.fresh else alookup k₁ s.clip_ids) = some v₀ := h₁
      have h₂' : (if k₂ = k then some s.fresh else alookup k₂ s.clip_ids) = some v₀ := h₂
      by_cases hk₁ : k₁ = k <;> by_cases hk₂ : k₂ = k
      · rw [hk₁, hk₂]
      · rw [if_pos hk₁] at h₁'
        rw [if_neg hk₂] at h₂'
        injection h₁' with hv
        subst hv
        exact absurd (hbc k₂ s.fresh h₂') (Nat.lt_irrefl s.fresh)
      · rw [if_neg hk₁] at h₁'
        rw [if_pos hk₂] at h₂'
        injection h₂' with hv
        subst hv
        exact absurd (hbc k₁ s.fresh h₁') (Nat.lt_irrefl s.fresh)
      · rw [if_neg hk₁] at h₁'
        rw [if_neg hk₂] at h₂'
        exact hic k₁ k₂ v₀ h₁' h₂'
    · intro m₁ m₂ v₀ h₁ h₂
      exact him m₁ m₂ v₀ h₁ h₂

theorem rm_good {s s' : MappingIdRefresher} {c f : Nat} {m v : Marker}
    (hg : GoodTables s) (h : s.refresh_marker c f m = Except.ok (v, s')) :
    GoodTables s' := by
  unfold MappingIdRefresher.refresh_marker at h
  cases hl : alookup m s.markers with
  | some w =>
    rw [hl] at h
    simp only [Except.ok.injEq, Prod.mk.injEq] at h
    obtain ⟨rfl, rfl⟩ := h
    exact hg
  | none =>
    rw [hl] at h
    simp only [Except.ok.injEq, Prod.mk.injEq] at h
    obtain ⟨rfl, rfl⟩ := h
    obtain ⟨⟨hbc, hbm⟩, ⟨hic, him⟩⟩ := hg
    refine ⟨⟨?_, ?_⟩, ⟨?_, ?_⟩⟩
    · intro k₀ v₀ hb
      have hlt := hbc k₀ v₀ hb
      show v₀ < s.fresh + 1
      exact Nat.lt_succ_of_lt hlt
    · intro m₀ v₀ hb
      have hb' : (if m₀ = m then some s.fresh else alookup m₀ s.markers) = some v₀ := hb
      by_cases hk : m₀ = m
      · rw [if_pos hk] at hb'
        injection hb' with hv
        subst hv
        exact Nat.lt_succ_self s.fresh
      · rw [if_neg hk] at hb'
        have hlt := hbm m₀ v₀ hb'
        show v₀ < s.fresh + 1
        exact Nat.lt_succ_of_lt hlt
    · intro k₁ k₂ v₀ h₁ h₂
      exact hic k₁ k₂ v₀ h₁ h₂
    · intro m₁ m₂ v₀ h₁ h₂
      have h₁' : (if m₁ = m then some s.fresh else alookup m₁ s.markers) = some v₀ := h₁
      have h₂' : (if m₂ = m then some s.fresh else alookup m₂ s.markers) = some v₀ := h₂
      by_cases hk₁ : m₁ = m <;> by_cases hk₂ : m₂ = m
      · rw [hk₁, hk₂]
      · rw [if_pos hk₁] at h₁'
        rw [if_neg hk₂] at h₂'
        injection h₁' with hv
        subst hv
        exact absurd (hbm m₂ s.fresh h₂') (Nat.lt_irrefl s.fresh)
      · rw [if_neg hk₁] at h₁'
        rw [if_pos hk₂] at h₂'
        injection h₂' with hv
        subst hv
        exact absurd (hbm m₁ s.fresh h₁') (Nat.lt_irrefl s.fresh)
      · rw [if_neg hk₁] at h₁'
        rw [if_neg hk₂] at h₂'
        exact him m₁ m₂ v₀ h₁' h₂'

theorem applyOp_mono (s : MappingIdRefresher) (op : RefreshOp) :
    RefMono s (s.applyOp op) := by
  cases op with
  | clip i k =>
    obtain ⟨v, s', h⟩ := rc_ok s i k
    simp only [MappingIdRefresher.applyOp, h]
    exact rc_mono h
  | marker c f m =>
    obtain ⟨v, s', h⟩ := rm_ok s c f m
    simp only [MappingIdRefresher.applyOp, h]
    exact rm_mono h

theorem run_mono (s : MappingIdRefresher) (ops : List RefreshOp) :
    RefMono s (s.run ops) := by
  induction ops generalizing s with
  | nil => exact refMono_refl s
  | cons op ops ih => exact refMono_trans (applyOp_mono s op) (ih (s.applyOp op))

theorem mappingRefresher_rm (s : MappingIdRefresher) (c f : Nat) (m : Marker) :
    mappingRefresher.refresh_marker s c f m = s.refresh_marker c f m := rfl

theorem mappingRefresher_rc (s : MappingIdRefresher) (i : Nat) (k : ClipId) :
    mappingRefresher.refresh_clip_id s i k = s.refresh_clip_id i k := rfl

theorem markersRun_spec (c f : Nat) (ms : List Marker) :
    ∀ (s : MappingIdRefresher) (ms' : List Marker) (s'' : MappingIdRefresher)
      (r : Option Impossible),
      refreshMarkers mappingRefresher c f s ms = (ms', s'', r) →
      r = none ∧ RefMono s s'' ∧ (GoodTables s → GoodTables s'') ∧
        List.Forall₂ (fun m₀ m₀' => MarkBinds s'' m₀ m₀') ms ms' := by
  induction ms with
  | nil =>
    intro s ms' s'' r h
    simp only [refreshMarkers, Prod.mk.injEq] at h
    obtain ⟨rfl, rfl, rfl⟩ := h
    exact ⟨rfl, refMono_refl s, fun hg => hg, List.Forall₂.nil⟩
  | cons m ms ih =>
    intro s ms' s'' r h
    obtain ⟨v, s₁, hok⟩ := rm_ok s c f m
    simp only [refreshMarkers, mappingRefresher_rm, hok] at h
    cases hrec : refreshMarkers mappingRefresher c f s₁ ms with
    | mk ms₀ p =>
      cases p with
      | mk s₀ r₀ =>
        rw [hrec] at h
        simp only [Prod.mk.injEq] at h
        obtain ⟨rfl, rfl, rfl⟩ := h
        obtain ⟨rfl, hmono, hgood, hfa⟩ := ih s₁ ms₀ s₀ r₀ hrec
        refine ⟨rfl, refMono_trans (rm_mono hok) hmono, ?_, ?_⟩
        · intro hg
          exact hgood (rm_good hg hok)
        · exact List.Forall₂.cons (hmono.2.1 m v (rm_binds hok)) hfa

theorem frameRel_mono {t t' : MappingIdRefresher} (h : RefMono t t')
    {fr fr' : Frame} (hf : FrameRel t fr fr') : FrameRel t' fr fr' :=
  ⟨hf.1, hf.2.imp (fun m₀ m₀' hb => h.2.1 m₀ m₀' hb)⟩

theorem framesRun_spec (c : Nat) (fs : List Frame) :
    ∀ (k : Nat) (s : MappingIdRefresher) (fs' : List Frame)
      (s'' : MappingIdRefresher) (r : Option Impossible),
      refreshFrames mappingRefresher c k s fs = (fs', s'', r) →
      r = none ∧ RefMono s s'' ∧ (GoodTables s → GoodTables s'') ∧
        List.Forall₂ (FrameRel s'') fs fs' := by
  induction fs with
  | nil =>
    intro k s fs' s'' r h
    simp only [refreshFrames, Prod.mk.injEq] at h
    obtain ⟨rfl, rfl, rfl⟩ := h
    exact ⟨rfl, refMono_refl s, fun hg => hg, List.Forall₂.nil⟩
  | cons f fs ih =>
    intro k s fs' s'' r h
    cases hm : refreshMarkers mappingRefresher c k s f.markers with
    | mk ms₀ p =>
      cases p with
      | mk s₁ r₁ =>
        obtain ⟨rfl, hmono₁, hgood₁, hfa₁⟩ :=
          markersRun_spec c k f.markers s ms₀ s₁ r₁ hm
        simp only [refreshFrames, hm] at h
        cases hrec : refreshFrames mappingRefresher c (k + 1) s₁ fs with
        | mk fs₀ q =>
          cases q with
          | mk s₀ r₀ =>
            rw [hrec] at h
            simp only [Prod.mk.injEq] at h
            obtain ⟨rfl, rfl, rfl⟩ := h
            obtain ⟨rfl, hmono₂, hgood₂, hfa₂⟩ := ih (k + 1) s₁ fs₀ s₀ r₀ hrec
            refine ⟨rfl, refMono_trans hmono₁ hmono₂, fun hg => hgood₂ (hgood₁ hg), ?_⟩
            refine List.Forall₂.cons ⟨rfl, ?_⟩ hfa₂
            exact hfa₁.imp (fun m₀ m₀' hb => hmono₂.2.1 m₀ m₀' hb)

theorem clipsRun_spec (cs : List Clip) :
    ∀ (idx : Nat) (s : MappingIdRefresher) (cs' : List Clip)
      (s'' : MappingIdRefresher) (r : Option Impossible),
      refreshClipsFrom mappingRefresher idx s cs = (cs', s'', r) →
      r = none ∧ RefMono s s'' ∧ (GoodTables s → GoodTables s'') ∧
        List.Forall₂ (ClipRel s'') cs cs' := by
  induction cs with
  | nil =>
    intro idx s cs' s'' r h
    simp only [refreshClipsFrom, Prod.mk.injEq] at h
    obtain ⟨rfl, rfl, rfl⟩ := h
    exact ⟨rfl, refMono_refl s, fun hg => hg, List.Forall₂.nil⟩
  | cons c cs ih =>
    intro idx s cs' s'' r h
    obtain ⟨v, s₁, hok⟩ := rc_ok s idx c.id
    cases hfr : refreshFrames mappingRefresher c.id 0 s₁ c.frames with
    | mk fs₁ p =>
      cases p with
      | mk s₂ r₂ =>
        obtain ⟨rfl, hmono₂, hgood₂, hfa₂⟩ :=
          framesRun_spec c.id c.frames 0 s₁ fs₁ s₂ r₂ hfr
        have hclip : c.refresh_ids idx mappingRefresher s =
            ({ c with id := v, frames := fs₁ }, s₂, none) := by
          simp only [Clip.refresh_ids, mappingRefresher_rc, hok, hfr]
        simp only [refreshClipsFrom, hclip] at h
        cases hrec : refreshClipsFrom mappingRefresher (idx + 1) s₂ cs with
        | mk cs₀ q =>
          cases q with
          | mk s₀ r₀ =>
            rw [hrec] at h
            simp only [Prod.mk.injEq] at h
            obtain ⟨rfl, rfl, rfl⟩ := h
            obtain ⟨rfl, hmono₃, hgood₃, hfa₃⟩ := ih (idx + 1) s₂ cs₀ s₀ r₀ hrec
            refine ⟨rfl,
              refMono_trans (rc_mono hok) (refMono_trans hmono₂ hmono₃),
              fun hg => hgood₃ (hgood₂ (rc_good hg hok)), ?_⟩
            refine List.Forall₂.cons ⟨?_, ?_⟩ (hfa₃.imp (fun c₀ c₀' hc => hc))
            · exact hmono₃.1 c.id v (hmono₂.1 c.id v (rc_binds hok))
            · exact hfa₂.imp (fun fr fr' hf => frameRel_mono hmono₃ hf)

theorem animRun_spec (a : Animation) (s : MappingIdRefresher)
    (a' : Animation) (s'' : MappingIdRefresher) (r : Option Impossible)
    (h : a.refresh_ids mappingRefresher s = (a', s'', r)) :
    r = none ∧ RefMono s s'' ∧ (GoodTables s → GoodTables s'') ∧
      List.Forall₂ (ClipRel s'') a.clips a'.clips := by
  cases hc : refreshClipsFrom mappingRefresher 0 s a.clips with
  | mk cs₁ p =>
    cases p with
    | mk s₁ r₁ =>
      obtain ⟨rfl, hmono, hgood, hfa⟩ := clipsRun_spec a.clips 0 s cs₁ s₁ r₁ hc
      simp only [Animation.refresh_ids, hc] at h
      simp only [Prod.mk.injEq] at h
      obtain ⟨rfl, rfl, rfl⟩ := h
      exact ⟨rfl, hmono, hgood, hfa⟩

theorem markBinds_fun {t : MappingIdRefresher} {m v v' : Marker}
    (h₁ : MarkBinds t m v) (h₂ : MarkBinds t m v') : v = v' := by
  have h₁' : alookup m t.markers = some v := h₁
  have h₂' : alookup m t.markers = some v' := h₂
  rw [h₁'] at h₂'
  exact Option.some.inj h₂' 

theorem clipBinds_fun {t : MappingIdRefresher} {k v v' : ClipId}
    (h₁ : ClipBinds t k v) (h₂ : ClipBinds t k v') : v = v' := by
  have h₁' : alookup k t.clip_ids = some v := h₁
  have h₂' : alookup k t.clip_ids = some v' := h₂
  rw [h₁'] at h₂'
  exact Option.some.inj h₂' 

theorem forall₂_getD {R : Nat → Nat → Prop} :
    ∀ {l₁ l₂ : List Nat}, List.Forall₂ R l₁ l₂ →
      ∀ p, p < l₁.length → R (l₁.getD p 0) (l₂.getD p 0) := by
  intro l₁ l₂ h
  induction h with
  | nil =>
    intro p hp
    exact absurd hp (by simp)
  | cons hab htl ih =>
    intro p hp
    cases p with
    | zero => simpa using hab
    | succ p =>
      simp only [List.getD_cons_succ]
      exact ih p (by simpa using hp)

theorem forall₂_mem_right {α β : Type} {R : α → β → Prop} :
    ∀ {l₁ : List α} {l₂ : List β}, List.Forall₂ R l₁ l₂ →
      ∀ b ∈ l₂, ∃ a ∈ l₁, R a b := by
  intro l₁ l₂ h
  induction h with
  | nil => intro b hb; exact absurd hb (by simp)
  | cons hab htl ih =>
    intro b hb
    rcases List.mem_cons.mp hb with hb | hb
    · exact ⟨_, List.mem_cons_self .., hb ▸ hab⟩
    · obtain ⟨a, ha, hr⟩ := ih b hb
      exact ⟨a, List.mem_cons_of_mem _ ha, hr⟩

theorem pairwise_transfer {α β : Type} {R : α → β → Prop} {P : α → α → Prop}
    {Q : β → β → Prop}
    (hpq : ∀ a b a' b', R a a' → R b b' → P a b → Q a' b') :
    ∀ {l : List α} {l' : List β}, List.Forall₂ R l l' → List.Pairwise P l →
      List.Pairwise Q l' := by
  intro l l' h
  induction h with
  | nil => intro; exact List.Pairwise.nil
  | cons hab htl ih =>
    intro hp
    rcases List.pairwise_cons.mp hp with ⟨hhead, htail⟩
    refine List.pairwise_cons.mpr ⟨?_, ih htail⟩
    intro b' hb'
    obtain ⟨b, hbmem, hr⟩ := forall₂_mem_right htl b' hb'
    exact hpq _ _ _ _ hab hr (hhead b hbmem)

theorem forall₂_map_clipId {t : MappingIdRefresher} :
    ∀ {cs cs' : List Clip}, List.Forall₂ (ClipRel t) cs cs' →
      List.Forall₂ (fun k k' => ClipBinds t k k')
        (cs.map Clip.id) (cs'.map Clip.id) := by
  intro cs cs' h
  induction h with
  | nil => exact List.Forall₂.nil
  | cons hab htl ih =>
    exact List.Forall₂.cons hab.1 ih

theorem forall₂_framesMarkers {t : MappingIdRefresher} :
    ∀ {fs fs' : List Frame}, List.Forall₂ (FrameRel t) fs fs' →
      List.Forall₂ (fun m₀ m₀' => MarkBinds t m₀ m₀')
        (framesMarkers fs) (framesMarkers fs') := by
  intro fs fs' h
  induction h with
  | nil => exact List.Forall₂.nil
  | cons hab htl ih =>
    simp only [framesMarkers, List.flatMap_cons]
    exact List.rel_append hab.2 ih

theorem forall₂_clipsMarkers {t : MappingIdRefresher} :
    ∀ {cs cs' : List Clip}, List.Forall₂ (ClipRel t) cs cs' →
      List.Forall₂ (fun m₀ m₀' => MarkBinds t m₀ m₀')
        (clipsMarkers cs) (clipsMarkers cs') := by
  intro cs cs' h
  induction h with
  | nil => exact List.Forall₂.nil
  | cons hab htl ih =>
    simp only [clipsMarkers, List.flatMap_cons]
    exact List.rel_append (forall₂_framesMarkers hab.2) ih

/-- C2 counterexample: the claim says the error type `Impossible` is
uninhabited, but in the source it is a unit struct (`pub struct Impossible;`)
and therefore has a value. -/
theorem impossible_is_inhabited : Nonempty Impossible := ⟨⟨⟩⟩

/-- C2 (amended): `Impossible` is an inhabited unit marker type, not an
uninhabited one; nevertheless MappingIdRefresher's refresh_clip_id and
refresh_marker always return Ok, and refreshing any animation with a
MappingIdRefresher never returns an error. -/
theorem mapping_refresher_never_fails :
    (∀ (s : MappingIdRefresher) (i : Nat) (k : ClipId),
      ∃ v s', s.refresh_clip_id i k = Except.ok (v, s')) ∧
    (∀ (s : MappingIdRefresher) (c f : Nat) (m : Marker),
      ∃ v s', s.refresh_marker c f m = Except.ok (v, s')) ∧
    (∀ (a : Animation) (s : MappingIdRefresher),
      (a.refresh_ids mappingRefresher s).2.2 = none) := by
  refine ⟨rc_ok, rm_ok, ?_⟩
  intro a s
  cases h : a.refresh_ids mappingRefresher s with
  | mk a' p =>
    cases p with
    | mk s'' r =>
      obtain ⟨rfl, -⟩ := animRun_spec a s a' s'' r h
      rfl

/-- C9: the default strategy ignores its positional arguments: from any
state, refresh_marker returns the same result for any clip id and frame
index, and refresh_clip_id returns the same result for any index. -/
theorem mapping_positional_independence :
    (∀ (s : MappingIdRefresher) (c₁ c₂ f₁ f₂ : Nat) (m : Marker),
      s.refresh_marker c₁ f₁ m = s.refresh_marker c₂ f₂ m) ∧
    (∀ (s : MappingIdRefresher) (i₁ i₂ : Nat) (k : ClipId),
      s.refresh_clip_id i₁ k = s.refresh_clip_id i₂ k) :=
  ⟨fun _ _ _ _ _ _ => rfl, fun _ _ _ _ => rfl⟩

/-- C10: Animation::empty yields exactly one clip, that clip has zero frames,
all four optional parameters are unset, and the clip sequence is not empty. -/
theorem animation_empty_shape :
    Animation.empty.clips.length = 1 ∧
    (Animation.empty.clips.getD 0 Clip.empty).frames.length = 0 ∧
    Animation.empty.duration = none ∧
    Animation.empty.repetitions = none ∧
    Animation.empty.direction = none ∧
    Animation.empty.easing = none ∧
    Animation.empty.clips ≠ [] := by
  refine ⟨rfl, rfl, rfl, rfl, rfl, rfl, ?_⟩
  intro h
  simp [Animation.empty] at h

/-- C1: consistency of remapping.  Once a MappingIdRefresher instance has
answered a clip id (or marker) query with a new value, every later query for
the same old identifier, after any further sequence of calls, returns that
identical value (and leaves the state unchanged); consequently, in a
successful refresh of an animation, occurrences of equal old markers map to
equal new markers and occurrences of equal old clip ids map to equal new
clip ids. -/
theorem consistency_of_remapping :
    (∀ (s s₂ : MappingIdRefresher) (ops : List RefreshOp) (i₁ i₂ : Nat)
      (k v : ClipId),
      s.refresh_clip_id i₁ k = Except.ok (v, s₂) →
      (MappingIdRefresher.run s₂ ops).refresh_clip_id i₂ k =
        Except.ok (v, MappingIdRefresher.run s₂ ops)) ∧
    (∀ (s s₂ : MappingIdRefresher) (ops : List RefreshOp) (c₁ c₂ f₁ f₂ : Nat)
      (m v : Marker),
      s.refresh_marker c₁ f₁ m = Except.ok (v, s₂) →
      (MappingIdRefresher.run s₂ ops).refresh_marker c₂ f₂ m =
        Except.ok (v, MappingIdRefresher.run s₂ ops)) ∧
    (∀ (a a' : Animation) (s s'' : MappingIdRefresher),
      a.refresh_ids mappingRefresher s = (a', s'', none) →
      (∀ p q, p < (animMarkers a).length → q < (animMarkers a).length →
        (animMarkers a).getD p 0 = (animMarkers a).getD q 0 →
        (animMarkers a').getD p 0 = (animMarkers a').getD q 0) ∧
      (∀ p q, p < (clipIdsOf a).length → q < (clipIdsOf a).length →
        (clipIdsOf a).getD p 0 = (clipIdsOf a).getD q 0 →
        (clipIdsOf a').getD p 0 = (clipIdsOf a').getD q 0)) := by
  refine ⟨?_, ?_, ?_⟩
  · intro s s₂ ops i₁ i₂ k v h
    exact rc_of_clipBinds i₂ ((run_mono s₂ ops).1 k v (rc_binds h))
  · intro s s₂ ops c₁ c₂ f₁ f₂ m v h
    exact rm_of_markBinds c₂ f₂ ((run_mono s₂ ops).2.1 m v (rm_binds h))
  · intro a a' s s'' h
    obtain ⟨-, -, -, hfa⟩ := animRun_spec a s a' s'' none h
    constructor
    · intro p q hp hq heq
      have hm := forall₂_clipsMarkers hfa
      have hbp : MarkBinds s'' ((animMarkers a).getD p 0)
          ((animMarkers a').getD p 0) := forall₂_getD hm p hp
      have hbq : MarkBinds s'' ((animMarkers a).getD q 0)
          ((animMarkers a').getD q 0) := forall₂_getD hm q hq
      rw [heq] at hbp
      exact markBinds_fun hbp hbq
    · intro p q hp hq heq
      have hm := forall₂_map_clipId hfa
      have hbp : ClipBinds s'' ((clipIdsOf a).getD p 0)
          ((clipIdsOf a').getD p 0) := forall₂_getD hm p hp
      have hbq : ClipBinds s'' ((clipIdsOf a).getD q 0)
          ((clipIdsOf a').getD q 0) := forall₂_getD hm q hq
      rw [heq] at hbp
      exact clipBinds_fun hbp hbq

/-- Witness for C1 at concrete inputs: a fresh refresher maps clip id 5 to 0;
after two further unrelated calls, querying 5 again still returns 0 with the
state unchanged, and the same pattern holds for a marker query. -/
theorem consistency_of_remapping_witness :
    (MappingIdRefresher.new [] [] 0).refresh_clip_id 0 5 =
      Except.ok (0, MappingIdRefresher.new [(5, 0)] [] 1) ∧
    (MappingIdRefresher.run (MappingIdRefresher.new [(5, 0)] [] 1)
        [RefreshOp.marker 0 0 9, RefreshOp.clip 3 6]).refresh_clip_id 1 5 =
      Except.ok (0, MappingIdRefresher.run (MappingIdRefresher.new [(5, 0)] [] 1)
        [RefreshOp.marker 0 0 9, RefreshOp.clip 3 6]) :=
  ⟨by decide,
   consistency_of_remapping.1 (MappingIdRefresher.new [] [] 0)
     (MappingIdRefresher.new [(5, 0)] [] 1)
     [RefreshOp.marker 0 0 9, RefreshOp.clip 3 6] 0 1 5 0 (by decide)⟩

/-- C4: uniqueness after refresh.  Starting from a freshly created (empty)
MappingIdRefresher, a successful refresh of an animation whose clip ids are
pairwise distinct yields pairwise distinct new clip ids, and markers that
were distinct before the refresh remain pairwise distinct. -/
theorem uniqueness_after_refresh (a a' : Animation) (n : Nat)
    (s'' : MappingIdRefresher)
    (h : a.refresh_ids mappingRefresher (MappingIdRefresher.new [] [] n) =
      (a', s'', none))
    (hnd : (clipIdsOf a).Nodup) :
    (clipIdsOf a').Nodup ∧
    (animMarkers a').length = (animMarkers a).length ∧
    (∀ p q, p < (animMarkers a).length → q < (animMarkers a).length →
      (animMarkers a).getD p 0 ≠ (animMarkers a).getD q 0 →
      (animMarkers a').getD p 0 ≠ (animMarkers a').getD q 0) := by
  obtain ⟨-, -, hgood, hfa⟩ := animRun_spec a _ a' s'' none h
  obtain ⟨-, hinjc, hinjm⟩ := hgood (goodTables_empty n)
  refine ⟨?_, ?_, ?_⟩
  · refine pairwise_transfer ?_ (forall₂_map_clipId hfa) hnd
    intro k₁ k₂ v₁ v₂ hb₁ hb₂ hne hveq
    exact hne (hinjc k₁ k₂ v₁ hb₁ (by rw [hveq]; exact hb₂))
  · exact (List.Forall₂.length_eq (forall₂_clipsMarkers hfa)).symm
  · intro p q hp hq hne heq'
    have hm := forall₂_clipsMarkers hfa
    have hbp : MarkBinds s'' ((animMarkers a).getD p 0)
        ((animMarkers a').getD p 0) := forall₂_getD hm p hp
    have hbq : MarkBinds s'' ((animMarkers a).getD q 0)
        ((animMarkers a').getD q 0) := forall₂_getD hm q hq
    rw [heq'] at hbp
    exact hne (hinjm _ _ _ hbp hbq)

/-- Witness for C4: a two-clip animation with clip ids 10 and 11 and markers
7 and 8, refreshed from an empty refresher, ends with distinct clip ids and
keeps its distinct markers distinct. -/
theorem uniqueness_after_refresh_witness :
    (Animation.refresh_ids
        { clips := [
            { id := 10, frames := [{ sprite := 0, markers := [7] }],
              duration := none, repetitions := none, direction := none,
              easing := none },
            { id := 11, frames := [{ sprite := 1, markers := [7, 8] }],
              duration := none, repetitions := none, direction := none,
              easing := none }],
          duration := none, repetitions := none, direction := none,
          easing := none }
        mappingRefresher (MappingIdRefresher.new [] [] 0) =
      ({ clips := [
            { id := 0, frames := [{ sprite := 0, markers := [1] }],
              duration := none, repetitions := none, direction := none,
              easing := none },
            { id := 2, frames := [{ sprite := 1, markers := [1, 3] }],
              duration := none, repetitions := none, direction := none,
              easing := none }],
          duration := none, repetitions := none, direction := none,
          easing := none },
        MappingIdRefresher.new [(11, 2), (10, 0)] [(8, 3), (7, 1)] 4, none)) ∧
    (clipIdsOf
        { clips := [
            { id := 10, frames := [{ sprite := 0, markers := [7] }],
              duration := none, repetitions := none, direction := none,
              easing := none },
            { id := 11, frames := [{ sprite := 1, markers := [7, 8] }],
              duration := none, repetitions := none, direction := none,
              easing := none }],
          duration := none, repetitions := none, direction := none,
          easing := none }).Nodup ∧
    (clipIdsOf
        { clips := [
            { id := 0, frames := [{ sprite := 0, markers := [1] }],
              duration := none, repetitions := none, direction := none,
              easing := none },
            { id := 2, frames := [{ sprite := 1, markers := [1, 3] }],
              duration := none, repetitions := none, direction := none,
              easing := none }],
          duration := none, repetitions := none, direction := none,
          easing := none }).Nodup := by
  refine ⟨by decide, by decide, ?_⟩
  exact (uniqueness_after_refresh
    { clips := [
        { id := 10, frames := [{ sprite := 0, markers := [7] }],
          duration := none, repetitions := none, direction := none,
          easing := none },
        { id := 11, frames := [{ sprite := 1, markers := [7, 8] }],
          duration := none, repetitions := none, direction := none,
          easing := none }],
      duration := none, repetitions := none, direction := none,
      easing := none }
    { clips := [
        { id := 0, frames := [{ sprite := 0, markers := [1] }],
          duration := none, repetitions := none, direction := none,
          easing := none },
        { id := 2, frames := [{ sprite := 1, markers := [1, 3] }],
          duration := none, repetitions := none, direction := none,
          easing := none }],
      duration := none, repetitions := none, direction := none,
      easing := none }
    0 (MappingIdRefresher.new [(11, 2), (10, 0)] [(8, 3), (7, 1)] 4)
    (by decide) (by decide)).1

/-- C7: pre-seeded mappings are honored.  A MappingIdRefresher constructed
with a table already containing an old-to-kept pair answers every later query
for that old identifier with exactly the kept identifier (generating nothing
and leaving the state unchanged), and in a successful animation refresh every
occurrence of the pre-seeded old marker is rewritten to the kept marker. -/
theorem preseeded_mappings_honored :
    (∀ (cm mm : List (Nat × Nat)) (n : Nat) (old kept : Marker)
      (ops : List RefreshOp) (c f : Nat),
      alookup old (MappingIdRefresher.new cm mm n).markers = some kept →
      ((MappingIdRefresher.new cm mm n).run ops).refresh_marker c f old =
        Except.ok (kept, (MappingIdRefresher.new cm mm n).run ops)) ∧
    (∀ (cm mm : List (Nat × Nat)) (n : Nat) (oldk keptk : ClipId)
      (ops : List RefreshOp) (i : Nat),
      alookup oldk (MappingIdRefresher.new cm mm n).clip_ids = some keptk →
      ((MappingIdRefresher.new cm mm n).run ops).refresh_clip_id i oldk =
        Except.ok (keptk, (MappingIdRefresher.new cm mm n).run ops)) ∧
    (∀ (s s'' : MappingIdRefresher) (old kept : Marker) (a a' : Animation),
      MarkBinds s old kept →
      a.refresh_ids mappingRefresher s = (a', s'', none) →
      ∀ p, p < (animMarkers a).length → (animMarkers a).getD p 0 = old →
        (animMarkers a').getD p 0 = kept) := by
  refine ⟨?_, ?_, ?_⟩
  · intro cm mm n old kept ops c f hseed
    exact rm_of_markBinds c f
      ((run_mono (MappingIdRefresher.new cm mm n) ops).2.1 old kept hseed)
  · intro cm mm n oldk keptk ops i hseed
    exact rc_of_clipBinds i
      ((run_mono (MappingIdRefresher.new cm mm n) ops).1 oldk keptk hseed)
  · intro s s'' old kept a a' hseed h p hp hold
    obtain ⟨-, hmono, -, hfa⟩ := animRun_spec a s a' s'' none h
    have hbp : MarkBinds s'' ((animMarkers a).getD p 0)
        ((animMarkers a').getD p 0) := forall₂_getD (forall₂_clipsMarkers hfa) p hp
    rw [hold] at hbp
    exact markBinds_fun hbp (hmono.2.1 old kept hseed)

/-- Witness for C7: with the marker table pre-seeded with the pair
(7, 42), a later refresh_marker call for 7 returns 42, and an animation
containing marker 7 has it rewritten to exactly 42. -/
theorem preseeded_mappings_honored_witness :
    alookup 7 (MappingIdRefresher.new [] [(7, 42)] 0).markers = some 42 ∧
    ((MappingIdRefresher.new [] [(7, 42)] 0).run
        [RefreshOp.clip 0 5]).refresh_marker 1 2 7 =
      Except.ok (42, (MappingIdRefresher.new [] [(7, 42)] 0).run
        [RefreshOp.clip 0 5]) ∧
    (Animation.refresh_ids
        { clips := [
            { id := 10, frames := [{ sprite := 0, markers := [7] }],
              duration := none, repetitions := none, direction := none,
              easing := none }],
          duration := none, repetitions := none, direction := none,
          easing := none }
        mappingRefresher (MappingIdRefresher.new [] [(7, 42)] 0) =
      ({ clips := [
            { id := 0, frames := [{ sprite := 0, markers := [42] }],
              duration := none, repetitions := none, direction := none,
              easing := none }],
          duration := none, repetitions := none, direction := none,
          easing := none },
        MappingIdRefresher.new [(10, 0)] [(7, 42)] 1, none)) ∧
    (animMarkers
        { clips := [
            { id := 0, frames := [{ sprite := 0, markers := [42] }],
              duration := none, repetitions := none, direction := none,
              easing := none }],
          duration := none, repetitions := none, direction := none,
          easing := none }).getD 0 0 = 42 := by
  refine ⟨by decide, ?_, by decide, ?_⟩
  · exact preseeded_mappings_honored.1 [] [(7, 42)] 0 7 42
      [RefreshOp.clip 0 5] 1 2 (by decide)
  · exact preseeded_mappings_honored.2.2
      (MappingIdRefresher.new [] [(7, 42)] 0)
      (MappingIdRefresher.new [(10, 0)] [(7, 42)] 1) 7 42
      { clips := [
          { id := 10, frames := [{ sprite := 0, markers := [7] }],
            duration := none, repetitions := none, direction := none,
            easing := none }],
        duration := none, repetitions := none, direction := none,
        easing := none }
      { clips := [
          { id := 0, frames := [{ sprite := 0, markers := [42] }],
            duration := none, repetitions := none, direction := none,
            easing := none }],
        duration := none, repetitions := none, direction := none,
        easing := none }
      (by decide) (by decide) 0 (by decide) (by decide)

theorem markersRun_shape {σ ε : Type} (R : IdRefresher σ ε) (c f : Nat)
    (ms : List Marker) :
    ∀ (s : σ) (ms' : List Marker) (s'' : σ),
      refreshMarkers R c f s ms = (ms', s'', none) →
      ms'.length = ms.length := by
  induction ms with
  | nil =>
    intro s ms' s'' h
    simp only [refreshMarkers, Prod.mk.injEq] at h
    obtain ⟨rfl, -⟩ := h
    rfl
  | cons m ms ih =>
    intro s ms' s'' h
    cases hok : R.refresh_marker s c f m with
    | error e =>
      simp only [refreshMarkers, hok, Prod.mk.injEq] at h
      exact Option.noConfusion h.2.2
    | ok p =>
      cases p with
      | mk m' s₁ =>
        simp only [refreshMarkers, hok] at h
        cases hrec : refreshMarkers R c f s₁ ms with
        | mk ms₀ q =>
          cases q with
          | mk s₀ r₀ =>
            rw [hrec] at h
            simp only [Prod.mk.injEq] at h
            obtain ⟨rfl, rfl, hr⟩ := h
            subst hr
            simp only [List.length_cons, ih s₁ ms₀ s₀ hrec]

theorem framesRun_shape {σ ε : Type} (R : IdRefresher σ ε) (c : Nat)
    (fs : List Frame) :
    ∀ (k : Nat) (s : σ) (fs' : List Frame) (s'' : σ),
      refreshFrames R c k s fs = (fs', s'', none) →
      List.Forall₂ FrameShape fs fs' := by
  induction fs with
  | nil =>
    intro k s fs' s'' h
    simp only [refreshFrames, Prod.mk.injEq] at h
    obtain ⟨rfl, -⟩ := h
    exact List.Forall₂.nil
  | cons f fs ih =>
    intro k s fs' s'' h
    cases hm : refreshMarkers R c k s f.markers with
    | mk ms₀ p =>
      cases p with
      | mk s₁ r₁ =>
        cases r₁ with
        | some e =>
          simp only [refreshFrames, hm, Prod.mk.injEq] at h
          exact Option.noConfusion h.2.2
        | none =>
          simp only [refreshFrames, hm] at h
          cases hrec : refreshFrames R c (k + 1) s₁ fs with
          | mk fs₀ q =>
            cases q with
            | mk s₀ r₀ =>
              rw [hrec] at h
              simp only [Prod.mk.injEq] at h
              obtain ⟨rfl, rfl, hr⟩ := h
              subst hr
              exact List.Forall₂.cons
                ⟨rfl, markersRun_shape R c k f.markers s ms₀ s₁ hm⟩
                (ih (k + 1) s₁ fs₀ s₀ hrec)

theorem clipsRun_shape {σ ε : Type} (R : IdRefresher σ ε) (cs : List Clip) :
    ∀ (idx : Nat) (s : σ) (cs' : List Clip) (s'' : σ),
      refreshClipsFrom R idx s cs = (cs', s'', none) →
      List.Forall₂ ClipShape cs cs' := by
  induction cs with
  | nil =>
    intro idx s cs' s'' h
    simp only [refreshClipsFrom, Prod.mk.injEq] at h
    obtain ⟨rfl, -⟩ := h
    exact List.Forall₂.nil
  | cons c cs ih =>
    intro idx s cs' s'' h
    cases hok : R.refresh_clip_id s idx c.id with
    | error e =>
      have hclip : c.refresh_ids idx R s = (c, s, some e) := by
        simp only [Clip.refresh_ids, hok]
      simp only [refreshClipsFrom, hclip, Prod.mk.injEq] at h
      exact Option.noConfusion h.2.2
    | ok p =>
      cases p with
      | mk v s₁ =>
        cases hfr : refreshFrames R c.id 0 s₁ c.frames with
        | mk fs₁ q =>
          cases q with
          | mk s₂ r₂ =>
            have hclip : c.refresh_ids idx R s =
                ({ c with id := v, frames := fs₁ }, s₂, r₂) := by
              simp only [Clip.refresh_ids, hok, hfr]
            cases r₂ with
            | some e =>
              simp only [refreshClipsFrom, hclip, Prod.mk.injEq] at h
              exact Option.noConfusion h.2.2
            | none =>
              simp only [refreshClipsFrom, hclip] at h
              cases hrec : refreshClipsFrom R (idx + 1) s₂ cs with
              | mk cs₀ q' =>
                cases q' with
                | mk s₀ r₀ =>
                  rw [hrec] at h
                  simp only [Prod.mk.injEq] at h
                  obtain ⟨rfl, rfl, hr⟩ := h
                  subst hr
                  exact List.Forall₂.cons
                    ⟨rfl, rfl, rfl, rfl,
                      framesRun_shape R c.id c.frames 0 s₁ fs₁ s₂ hfr⟩
                    (ih (idx + 1) s₂ cs₀ s₀ hrec)

/-- C8: frame condition of the refresh.  A successful refresh_ids changes at
most the clip identifiers and marker values: the animation-level optional
parameters, the number and order of clips, each clip's optional parameters,
the number and order of its frames, each frame's sprite data and its number
of markers are all unchanged. -/
theorem refresh_frame_condition {σ ε : Type} (R : IdRefresher σ ε)
    (a a' : Animation) (s s' : σ)
    (h : a.refresh_ids R s = (a', s', none)) :
    a'.duration = a.duration ∧ a'.repetitions = a.repetitions ∧
    a'.direction = a.direction ∧ a'.easing = a.easing ∧
    a'.clips.length = a.clips.length ∧
    List.Forall₂ ClipShape a.clips a'.clips := by
  cases hc : refreshClipsFrom R 0 s a.clips with
  | mk cs₁ p =>
    cases p with
    | mk s₁ r₁ =>
      simp only [Animation.refresh_ids, hc, Prod.mk.injEq] at h
      obtain ⟨rfl, rfl, hr⟩ := h
      subst hr
      have hsh := clipsRun_shape R a.clips 0 s cs₁ _ hc
      exact ⟨rfl, rfl, rfl, rfl, hsh.length_eq.symm, hsh⟩

/-- Witness for C8: refreshing a concrete two-clip animation with an identity
refresher succeeds and preserves every non-identifier component. -/
theorem refresh_frame_condition_witness :
    (Animation.refresh_ids
        { clips := [
            { id := 10, frames := [{ sprite := 3, markers := [7] }],
              duration := some (AnimationDuration.PerFrame 50),
              repetitions := some (AnimationRepeat.Times 2),
              direction := some AnimationDirection.PingPong,
              easing := some 4 },
            { id := 11, frames := [], duration := none, repetitions := none,
              direction := none, easing := none }],
          duration := some (AnimationDuration.PerRepetition 2000),
          repetitions := some AnimationRepeat.Loop,
          direction := some AnimationDirection.Backwards,
          easing := some 9 }
        plainRefresher () =
      ({ clips := [
            { id := 10, frames := [{ sprite := 3, markers := [7] }],
              duration := some (AnimationDuration.PerFrame 50),
              repetitions := some (AnimationRepeat.Times 2),
              direction := some AnimationDirection.PingPong,
              easing := some 4 },
            { id := 11, frames := [], duration := none, repetitions := none,
              direction := none, easing := none }],
          duration := some (AnimationDuration.PerRepetition 2000),
          repetitions := some AnimationRepeat.Loop,
          direction := some AnimationDirection.Backwards,
          easing := some 9 }, (), none)) ∧
    ({ clips := [
          { id := 10, frames := [{ sprite := 3, markers := [7] }],
            duration := some (AnimationDuration.PerFrame 50),
            repetitions := some (AnimationRepeat.Times 2),
            direction := some AnimationDirection.PingPong,
            easing := some 4 },
          { id := 11, frames := [], duration := none, repetitions := none,
            direction := none, easing := none }],
        duration := some (AnimationDuration.PerRepetition 2000),
        repetitions := some AnimationRepeat.Loop,
        direction := some AnimationDirection.Backwards,
        easing := some 9 } : Animation).duration =
      some (AnimationDuration.PerRepetition 2000) ∧
    (2 : Nat) = 2 := by
  refine ⟨by decide, by decide, ?_⟩
  have hw := refresh_frame_condition plainRefresher
    { clips := [
        { id := 10, frames := [{ sprite := 3, markers := [7] }],
          duration := some (AnimationDuration.PerFrame 50),
          repetitions := some (AnimationRepeat.Times 2),
          direction := some AnimationDirection.PingPong,
          easing := some 4 },
        { id := 11, frames := [], duration := none, repetitions := none,
          direction := none, easing := none }],
      duration := some (AnimationDuration.PerRepetition 2000),
      repetitions := some AnimationRepeat.Loop,
      direction := some AnimationDirection.Backwards,
      easing := some 9 }
    { clips := [
        { id := 10, frames := [{ sprite := 3, markers := [7] }],
          duration := some (AnimationDuration.PerFrame 50),
          repetitions := some (AnimationRepeat.Times 2),
          direction := some AnimationDirection.PingPong,
          easing := some 4 },
        { id := 11, frames := [], duration := none, repetitions := none,
          direction := none, easing := none }],
      duration := some (AnimationDuration.PerRepetition 2000),
      repetitions := some AnimationRepeat.Loop,
      direction := some AnimationDirection.Backwards,
      easing := some 9 } () () (by decide)
  exact hw.2.2.2.2.1

theorem refreshClipsFrom_append {σ ε : Type} (R : IdRefresher σ ε)
    (l₁ : List Clip) :
    ∀ (l₂ : List Clip) (idx : Nat) (s : σ) (l₁' : List Clip) (s₁ : σ),
      refreshClipsFrom R idx s l₁ = (l₁', s₁, none) →
      ∀ (l₂' : List Clip) (s₂ : σ) (r : Option ε),
        refreshClipsFrom R (idx + l₁.length) s₁ l₂ = (l₂', s₂, r) →
        refreshClipsFrom R idx s (l₁ ++ l₂) = (l₁' ++ l₂', s₂, r) := by
  induction l₁ with
  | nil =>
    intro l₂ idx s l₁' s₁ h l₂' s₂ r h₂
    simp only [refreshClipsFrom, Prod.mk.injEq] at h
    obtain ⟨rfl, rfl, -⟩ := h
    exact h₂
  | cons c l₁ ih =>
    intro l₂ idx s l₁' s₁ h l₂' s₂ r h₂
    cases hc : c.refresh_ids idx R s with
    | mk c' p =>
      cases p with
      | mk s₀ r₀ =>
        cases r₀ with
        | some e =>
          simp only [refreshClipsFrom, hc, Prod.mk.injEq] at h
          exact Option.noConfusion h.2.2
        | none =>
          simp only [refreshClipsFrom, hc] at h
          cases hrest : refreshClipsFrom R (idx + 1) s₀ l₁ with
          | mk cs₀ q =>
            cases q with
            | mk sr rr =>
              rw [hrest] at h
              simp only [Prod.mk.injEq] at h
              obtain ⟨rfl, rfl, hr⟩ := h
              subst hr
              have hlen : idx + (c :: l₁).length = idx + 1 + l₁.length := by
                simp only [List.length_cons]
                omega
              rw [hlen] at h₂
              have := ih l₂ (idx + 1) s₀ cs₀ sr hrest l₂' s₂ r h₂
              simp only [List.cons_append, refreshClipsFrom, hc,
                List.append_eq, this]

/-- C3: fail-fast, non-atomic error propagation.  If the first i clips
refresh successfully and the refresher then fails while processing the clip
at index i, Animation::refresh_ids returns precisely that error, keeps the
already-remapped versions of clips 0..i-1, and leaves the clips after index
i completely untouched. -/
theorem refresh_fail_fast {σ ε : Type} (R : IdRefresher σ ε) (a : Animation)
    (i : Nat) (cs₀ : List Clip) (s sᵢ s' : σ) (c' : Clip) (e : ε)
    (hi : i < a.clips.length)
    (hpre : refreshClipsFrom R 0 s (a.clips.take i) = (cs₀, sᵢ, none))
    (hfail : (a.clips.getD i Clip.empty).refresh_ids i R sᵢ = (c', s', some e)) :
    a.refresh_ids R s =
      ({ a with clips := cs₀ ++ c' :: a.clips.drop (i + 1) }, s', some e) ∧
    cs₀.length = i := by
  have hlt : (a.clips.take i).length = i := by
    rw [List.length_take]
    exact Nat.min_eq_left (Nat.le_of_lt hi)
  have hdrop : a.clips.drop i =
      a.clips.getD i Clip.empty :: a.clips.drop (i + 1) := by
    rw [List.drop_eq_getElem_cons hi]
    congr 1
    exact (List.getD_eq_getElem a.clips Clip.empty hi).symm
  have hsplit : a.clips.take i ++
      a.clips.getD i Clip.empty :: a.clips.drop (i + 1) = a.clips := by
    rw [← hdrop]
    exact List.take_append_drop i a.clips
  have hstep : refreshClipsFrom R i sᵢ
      (a.clips.getD i Clip.empty :: a.clips.drop (i + 1)) =
      (c' :: a.clips.drop (i + 1), s', some e) := by
    simp only [refreshClipsFrom, hfail]
  have hstep' : refreshClipsFrom R (0 + (a.clips.take i).length) sᵢ
      (a.clips.getD i Clip.empty :: a.clips.drop (i + 1)) =
      (c' :: a.clips.drop (i + 1), s', some e) := by
    rw [hlt, Nat.zero_add]
    exact hstep
  have happ := refreshClipsFrom_append R (a.clips.take i)
    (a.clips.getD i Clip.empty :: a.clips.drop (i + 1)) 0 s cs₀ sᵢ hpre
    (c' :: a.clips.drop (i + 1)) s' (some e) hstep'
  rw [hsplit] at happ
  constructor
  · simp only [Animation.refresh_ids, happ]
  · rw [← hlt]
    exact (clipsRun_shape R (a.clips.take i) 0 s cs₀ sᵢ hpre).length_eq.symm

/-- Witness for C3: with a refresher that fails on the clip at index 1 of a
three-clip animation, the refresh returns error 9, clip 0 is already
remapped, and clips 1 and 2 are untouched. -/
theorem refresh_fail_fast_witness :
    refreshClipsFrom failingRefresher 0 () (failFastAnimation.clips.take 1) =
      ([failFastClip0], (), none) ∧
    (failFastAnimation.clips.getD 1 Clip.empty).refresh_ids
        1 failingRefresher () =
      ({ id := 2, frames := [], duration := none, repetitions := none,
         direction := none, easing := none }, (), some 9) ∧
    failFastAnimation.refresh_ids failingRefresher () =
      ({ failFastAnimation with clips := [failFastClip0] ++
          { id := 2, frames := [], duration := none, repetitions := none,
            direction := none, easing := none } ::
          failFastAnimation.clips.drop 2 }, (), some 9) := by
  refine ⟨by decide, by decide, ?_⟩
  exact (refresh_fail_fast failingRefresher failFastAnimation 1 [failFastClip0]
    () () ()
    { id := 2, frames := [], duration := none, repetitions := none,
      direction := none, easing := none }
    9 (by decide) (by decide) (by decide)).1

theorem tracedMarkers_log {σ ε : Type} (R : IdRefresher σ ε) (c f : Nat)
    (ms : List Marker) :
    ∀ (s : σ) (log : List REvent) (ms' : List Marker) (s' : σ)
      (log' : List REvent),
      refreshMarkers (traced R) c f (s, log) ms = (ms', (s', log'), none) →
      log' = log ++ ms.map (REvent.markerCall c f) := by
  induction ms with
  | nil =>
    intro s log ms' s' log' h
    simp only [refreshMarkers, Prod.mk.injEq] at h
    obtain ⟨-, ⟨-, rfl⟩, -⟩ := h
    simp
  | cons m ms ih =>
    intro s log ms' s' log' h
    cases hok : R.refresh_marker s c f m with
    | error e =>
      have hstep : (traced R).refresh_marker (s, log) c f m = Except.error e := by
        simp only [traced, hok]
      simp only [refreshMarkers, hstep, Prod.mk.injEq] at h
      exact Option.noConfusion h.2.2
    | ok p =>
      cases p with
      | mk v s₁ =>
        have hstep : (traced R).refresh_marker (s, log) c f m =
            Except.ok (v, (s₁, log ++ [REvent.markerCall c f m])) := by
          simp only [traced, hok]
        simp only [refreshMarkers, hstep] at h
        cases hrec : refreshMarkers (traced R) c f
            (s₁, log ++ [REvent.markerCall c f m]) ms with
        | mk ms₀ q =>
          cases q with
          | mk p₂ r₀ =>
            cases p₂ with
            | mk s₂ log₂ =>
              rw [hrec] at h
              simp only [Prod.mk.injEq] at h
              obtain ⟨-, ⟨-, rfl⟩, hr⟩ := h
              subst hr
              rw [ih s₁ (log ++ [REvent.markerCall c f m]) ms₀ s₂ log₂ hrec]
              simp [List.append_assoc]

theorem tracedFrames_log {σ ε : Type} (R : IdRefresher σ ε) (c : Nat)
    (fs : List Frame) :
    ∀ (k : Nat) (s : σ) (log : List REvent) (fs' : List Frame) (s' : σ)
      (log' : List REvent),
      refreshFrames (traced R) c k (s, log) fs = (fs', (s', log'), none) →
      log' = log ++ framesTrace c k fs := by
  induction fs with
  | nil =>
    intro k s log fs' s' log' h
    simp only [refreshFrames, Prod.mk.injEq] at h
    obtain ⟨-, ⟨-, rfl⟩, -⟩ := h
    simp [framesTrace]
  | cons f fs ih =>
    intro k s log fs' s' log' h
    cases hm : refreshMarkers (traced R) c k (s, log) f.markers with
    | mk ms₀ q =>
      cases q with
      | mk p₁ r₁ =>
        cases p₁ with
        | mk s₁ log₁ =>
          cases r₁ with
          | some e =>
            simp only [refreshFrames, hm, Prod.mk.injEq] at h
            exact Option.noConfusion h.2.2
          | none =>
            simp only [refreshFrames, hm] at h
            cases hrec : refreshFrames (traced R) c (k + 1) (s₁, log₁) fs with
            | mk fs₀ q' =>
              cases q' with
              | mk p₂ r₀ =>
                cases p₂ with
                | mk s₂ log₂ =>
                  rw [hrec] at h
                  simp only [Prod.mk.injEq] at h
                  obtain ⟨-, ⟨-, rfl⟩, hr⟩ := h
                  subst hr
                  rw [ih (k + 1) s₁ log₁ fs₀ s₂ log₂ hrec,
                    tracedMarkers_log R c k f.markers s log ms₀ s₁ log₁ hm]
                  simp [framesTrace, List.append_assoc]

theorem tracedClips_log {σ ε : Type} (R : IdRefresher σ ε) (cs : List Clip) :
    ∀ (idx : Nat) (s : σ) (log : List REvent) (cs' : List Clip) (s' : σ)
      (log' : List REvent),
      refreshClipsFrom (traced R) idx (s, log) cs = (cs', (s', log'), none) →
      log' = log ++ clipsTrace idx cs := by
  induction cs with
  | nil =>
    intro idx s log cs' s' log' h
    simp only [refreshClipsFrom, Prod.mk.injEq] at h
    obtain ⟨-, ⟨-, rfl⟩, -⟩ := h
    simp [clipsTrace]
  | cons c cs ih =>
    intro idx s log cs' s' log' h
    cases hok : R.refresh_clip_id s idx c.id with
    | error e =>
      have hstep : (traced R).refresh_clip_id (s, log) idx c.id =
          Except.error e := by
        simp only [traced, hok]
      have hclip : c.refresh_ids idx (traced R) (s, log) = (c, (s, log), some e) := by
        simp only [Clip.refresh_ids, hstep]
      simp only [refreshClipsFrom, hclip, Prod.mk.injEq] at h
      exact Option.noConfusion h.2.2
    | ok p =>
      cases p with
      | mk v s₁ =>
        have hstep : (traced R).refresh_clip_id (s, log) idx c.id =
            Except.ok (v, (s₁, log ++ [REvent.clipCall idx c.id])) := by
          simp only [traced, hok]
        cases hfr : refreshFrames (traced R) c.id 0
            (s₁, log ++ [REvent.clipCall idx c.id]) c.frames with
        | mk fs₁ q =>
          cases q with
          | mk p₂ r₂ =>
            cases p₂ with
            | mk s₂ log₂ =>
              have hclip : c.refresh_ids idx (traced R) (s, log) =
                  ({ c with id := v, frames := fs₁ }, (s₂, log₂), r₂) := by
                simp only [Clip.refresh_ids, hstep, hfr]
              cases r₂ with
              | some e =>
                simp only [refreshClipsFrom, hclip, Prod.mk.injEq] at h
                exact Option.noConfusion h.2.2
              | none =>
                simp only [refreshClipsFrom, hclip] at h
                cases hrec : refreshClipsFrom (traced R) (idx + 1) (s₂, log₂) cs with
                | mk cs₀ q' =>
                  cases q' with
                  | mk p₃ r₀ =>
                    cases p₃ with
                    | mk s₃ log₃ =>
                      rw [hrec] at h
                      simp only [Prod.mk.injEq] at h
                      obtain ⟨-, ⟨-, rfl⟩, hr⟩ := h
                      subst hr
                      rw [ih (idx + 1) s₂ log₂ cs₀ s₃ log₃ hrec,
                        tracedFrames_log R c.id c.frames 0 s₁
                          (log ++ [REvent.clipCall idx c.id]) fs₁ s₂ log₂ hfr]
                      simp [clipsTrace, List.append_assoc]

theorem tracedAnim_log {σ ε : Type} (R : IdRefresher σ ε) (a : Animation)
    (s : σ) (a' : Animation) (s' : σ) (log' : List REvent)
    (h : a.refresh_ids (traced R) (s, []) = (a', (s', log'), none)) :
    log' = expectedTrace a := by
  cases hc : refreshClipsFrom (traced R) 0 ((s : σ), ([] : List REvent)) a.clips with
  | mk cs₁ q =>
    cases q with
    | mk p₁ r₁ =>
      cases p₁ with
      | mk s₁ log₁ =>
        simp only [Animation.refresh_ids, hc, Prod.mk.injEq] at h
        obtain ⟨-, ⟨-, rfl⟩, hr⟩ := h
        subst hr
        have := tracedClips_log R a.clips 0 s [] cs₁ s₁ log₁ hc
        simpa [expectedTrace] using this

theorem markerCall_mem_framesTrace {c cid : ClipId} {f : Nat} {m : Marker}
    (fs : List Frame) :
    ∀ k, REvent.markerCall c f m ∈ framesTrace cid k fs → c = cid := by
  induction fs with
  | nil =>
    intro k h
    exact absurd h (by simp [framesTrace])
  | cons fr fs ih =>
    intro k h
    simp only [framesTrace, List.mem_append] at h
    rcases h with h | h
    · obtain ⟨m₀, -, heq⟩ := List.mem_map.mp h
      injection heq with h₁ h₂ h₃
      exact h₁.symm
    · exact ih (k + 1) h

theorem markerCall_mem_clipsTrace {c : ClipId} {f : Nat} {m : Marker}
    (cs : List Clip) :
    ∀ k, REvent.markerCall c f m ∈ clipsTrace k cs → ∃ cl ∈ cs, c = cl.id := by
  induction cs with
  | nil =>
    intro k h
    exact absurd h (by simp [clipsTrace])
  | cons cl cs ih =>
    intro k h
    simp only [clipsTrace, List.mem_cons, List.mem_append] at h
    rcases h with h | h | h
    · exact absurd h (by simp)
    · exact ⟨cl, List.mem_cons_self .., markerCall_mem_framesTrace cl.frames 0 h⟩
    · obtain ⟨cl', hmem, he⟩ := ih (k + 1) h
      exact ⟨cl', List.mem_cons_of_mem _ hmem, he⟩

/-- C5: pre-remap clip identifier.  In a successful traced refresh, the call
sequence is exactly expectedTrace, in which every refresh_marker call of a
clip carries that clip's identifier as it was before the refresh replaced it
(the clipCall for the clip precedes its markerCalls, yet they all carry the
old id); in particular every clip id passed to refresh_marker is the
pre-refresh id of one of the animation's clips. -/
theorem pre_remap_clip_id {σ ε : Type} (R : IdRefresher σ ε)
    (a a' : Animation) (s s' : σ) (log' : List REvent)
    (h : a.refresh_ids (traced R) (s, []) = (a', (s', log'), none)) :
    log' = expectedTrace a ∧
    ∀ c f m, REvent.markerCall c f m ∈ log' → ∃ cl ∈ a.clips, c = cl.id := by
  have hlog := tracedAnim_log R a s a' s' log' h
  refine ⟨hlog, ?_⟩
  intro c f m hmem
  rw [hlog] at hmem
  exact markerCall_mem_clipsTrace a.clips 0 hmem

/-- Witness for C5: a concrete traced run produces exactly the expected
trace, whose single markerCall pair carries the clip's old id 1. -/
theorem pre_remap_clip_id_witness :
    twoMarkerAnimation.refresh_ids (traced plainRefresher) ((), []) =
      (twoMarkerAnimation, ((),
        [REvent.clipCall 0 1, REvent.markerCall 1 0 7,
         REvent.markerCall 1 0 8]), none) ∧
    [REvent.clipCall 0 1, REvent.markerCall 1 0 7, REvent.markerCall 1 0 8] =
      expectedTrace twoMarkerAnimation := by
  refine ⟨by decide, ?_⟩
  exact (pre_remap_clip_id plainRefresher twoMarkerAnimation twoMarkerAnimation
    () ()
    [REvent.clipCall 0 1, REvent.markerCall 1 0 7, REvent.markerCall 1 0 8]
    (by decide)).1

theorem clipCallIndices_append (l₁ l₂ : List REvent) :
    clipCallIndices (l₁ ++ l₂) = clipCallIndices l₁ ++ clipCallIndices l₂ := by
  induction l₁ with
  | nil => rfl
  | cons e l₁ ih => cases e <;> simp [clipCallIndices, ih]

theorem clipCallIndices_map_markerCall (c k : Nat) (ms : List Marker) :
    clipCallIndices (ms.map (REvent.markerCall c k)) = [] := by
  induction ms with
  | nil => rfl
  | cons m ms ih => simp [clipCallIndices, ih]

theorem clipCallIndices_framesTrace (c : ClipId) (fs : List Frame) :
    ∀ k, clipCallIndices (framesTrace c k fs) = [] := by
  induction fs with
  | nil => intro k; rfl
  | cons f fs ih =>
    intro k
    simp [framesTrace, clipCallIndices_append, clipCallIndices_map_markerCall, ih]

theorem clipCallIndices_clipsTrace (cs : List Clip) :
    ∀ k, clipCallIndices (clipsTrace k cs) = List.range' k cs.length := by
  induction cs with
  | nil => intro k; rfl
  | cons cl cs ih =>
    intro k
    rw [List.length_cons, List.range'_succ k cs.length 1]
    simp [clipsTrace, clipCallIndices, clipCallIndices_append,
      clipCallIndices_framesTrace, ih]

theorem markerFrameIdxs_append (l₁ l₂ : List REvent) :
    markerFrameIdxs (l₁ ++ l₂) = markerFrameIdxs l₁ ++ markerFrameIdxs l₂ := by
  induction l₁ with
  | nil => rfl
  | cons e l₁ ih => cases e <;> simp [markerFrameIdxs, ih]

theorem markerFrameIdxs_map_markerCall (c k : Nat) (ms : List Marker) :
    markerFrameIdxs (ms.map (REvent.markerCall c k)) =
      List.replicate ms.length k := by
  induction ms with
  | nil => rfl
  | cons m ms ih => simp [markerFrameIdxs, ih, List.replicate_succ]

theorem markerFrameIdxs_framesTrace_lb (c : ClipId) (fs : List Frame) :
    ∀ k x, x ∈ markerFrameIdxs (framesTrace c k fs) → k ≤ x := by
  induction fs with
  | nil =>
    intro k x hx
    exact absurd hx (by simp [framesTrace, markerFrameIdxs])
  | cons f fs ih =>
    intro k x hx
    simp only [framesTrace, markerFrameIdxs_append,
      markerFrameIdxs_map_markerCall, List.mem_append] at hx
    rcases hx with hx | hx
    · rw [List.eq_of_mem_replicate hx]
    · exact Nat.le_of_succ_le (ih (k + 1) x hx)

theorem pairwise_le_replicate (n k : Nat) :
    List.Pairwise (· ≤ ·) (List.replicate n k) := by
  induction n with
  | zero => exact List.Pairwise.nil
  | succ n ih =>
    rw [List.replicate_succ]
    refine List.pairwise_cons.mpr ⟨?_, ih⟩
    intro b hb
    rw [List.eq_of_mem_replicate hb]

theorem markerFrameIdxs_framesTrace_sorted (c : ClipId) (fs : List Frame) :
    ∀ k, List.Pairwise (· ≤ ·) (markerFrameIdxs (framesTrace c k fs)) := by
  induction fs with
  | nil => intro k; exact List.Pairwise.nil
  | cons f fs ih =>
    intro k
    simp only [framesTrace, markerFrameIdxs_append,
      markerFrameIdxs_map_markerCall]
    refine List.pairwise_append.mpr ⟨pairwise_le_replicate _ k, ih (k + 1), ?_⟩
    intro x hx y hy
    rw [List.eq_of_mem_replicate hx]
    exact Nat.le_of_succ_le (markerFrameIdxs_framesTrace_lb c fs (k + 1) y hy)

/-- C6 counterexample: when one frame carries two markers, refresh_marker
receives the same frame index twice within the clip, so the sequence of frame
indices passed within a clip is not strictly increasing (here it is [0, 0]). -/
theorem marker_frame_indices_not_strict :
    (twoMarkerAnimation.refresh_ids (traced plainRefresher) ((), [])).2.2 = none ∧
    markerFrameIdxs
      (twoMarkerAnimation.refresh_ids (traced plainRefresher) ((), [])).2.1.2 =
      [0, 0] ∧
    ¬ List.Pairwise (fun x y => x < y)
      (markerFrameIdxs
        (twoMarkerAnimation.refresh_ids (traced plainRefresher) ((), [])).2.1.2) := by
  refine ⟨by decide, by decide, ?_⟩
  intro hp
  have he : markerFrameIdxs
      (twoMarkerAnimation.refresh_ids (traced plainRefresher) ((), [])).2.1.2 =
      [0, 0] := by decide
  rw [he] at hp
  exact absurd ((List.pairwise_cons.mp hp).1 0 (List.mem_cons_self ..))
    (Nat.lt_irrefl 0)

/-- C6 (amended): in a successful traced refresh, refresh_clip_id is invoked
exactly once per clip with the indices 0..N-1 in strictly increasing order,
and within each clip refresh_marker is invoked with non-decreasing zero-based
frame indices in frame-sequence order (the index repeats exactly for multiple
markers on the same frame, as the trace equation shows). -/
theorem refresh_call_indices {σ ε : Type} (R : IdRefresher σ ε)
    (a a' : Animation) (s s' : σ) (log' : List REvent)
    (h : a.refresh_ids (traced R) (s, []) = (a', (s', log'), none)) :
    log' = expectedTrace a ∧
    clipCallIndices log' = List.range a.clips.length ∧
    ∀ cl ∈ a.clips, List.Pairwise (· ≤ ·)
      (markerFrameIdxs (framesTrace cl.id 0 cl.frames)) := by
  have hlog := tracedAnim_log R a s a' s' log' h
  refine ⟨hlog, ?_, ?_⟩
  · rw [hlog]
    show clipCallIndices (clipsTrace 0 a.clips) = List.range a.clips.length
    rw [clipCallIndices_clipsTrace a.clips 0, List.range_eq_range' a.clips.length]
  · intro cl hmem
    exact markerFrameIdxs_framesTrace_sorted cl.id cl.frames 0

/-- Witness for C6 at a concrete run: the single clipCall index list is
exactly range 1. -/
theorem refresh_call_indices_witness :
    twoMarkerAnimation.refresh_ids (traced plainRefresher) ((), []) =
      (twoMarkerAnimation, ((),
        [REvent.clipCall 0 1, REvent.markerCall 1 0 7,
         REvent.markerCall 1 0 8]), none) ∧
    clipCallIndices
      [REvent.clipCall 0 1, REvent.markerCall 1 0 7, REvent.markerCall 1 0 8] =
      List.range twoMarkerAnimation.clips.length := by
  refine ⟨by decide, ?_⟩
  exact (refresh_call_indices plainRefresher twoMarkerAnimation
    twoMarkerAnimation () ()
    [REvent.clipCall 0 1, REvent.markerCall 1 0 7, REvent.markerCall 1 0 8]
    (by decide)).2.1
